import Mathlib

/-!
Shallow embedding of `src/app.py` (keyword-driven web crawler) and proofs of the
spec claims about it.

Modelling conventions:
* URLs, HTML and column cells are `String`s.
* Real-valued similarity scores are `ℚ` (the source compares with `>=` only).
* The external TF-IDF cosine-similarity computation (sklearn, outside this
  repository) is an oracle `String → String → Option ℚ`; `none` models the
  `except Exception` branch of `is_relevant`.
* The external page fetcher (`get_links_from_page`, Playwright) is an oracle
  `String → String × List String` returning the rendered HTML and the outbound
  links; an empty HTML string models a fetch failure, exactly the pair of
  empty string and empty list that `get_links_from_page` returns in its own
  `except` branch.
* The Python set of visited URLs is a `List String` mutated by guarded insert
  (the source only adds a URL after checking membership, so it stays duplicate
  free); the mutation is made explicit by threading the list through the
  recursion and returning the final value.
* A Google Sheets worksheet is its list of rows (each row a list of cells);
  `col_values(1)` reads the heads of the rows, `append_rows` concatenates.
  Whether `append_rows` was invoked is returned as an explicit `Bool`.
-/

namespace WebCrawler

/-! ## Configuration constants (src/app.py lines 16-19) -/

def RELEVANCE_THRESHOLD : ℚ := 1 / 100

def MAX_CRAWL_DEPTH : Nat := 2

def CRAWL_TIMEOUT : Nat := 30 * 60

def CUSTOM_DOMAINS : List String := ["https://example.com"]

/-! ## Google Sheets sink (src/app.py lines 34-39) -/

/-- A worksheet: the list of its rows, each row a list of cell strings. -/
structure Sheet where
  rows : List (List String)
deriving Repr, DecidableEq

/-- Embedding of `sheet.col_values(1)`: the first-column value of every row
that has one. -/
def Sheet.colValues1 (sheet : Sheet) : List String :=
  sheet.rows.filterMap List.head?

/-- Embedding of `update_sheet(sheet, links)`.  Returns the value of
`new_links`, the sheet state after the call, and whether `append_rows` was
invoked. -/
def update_sheet (sheet : Sheet) (links : List String) :
    List String × Sheet × Bool :=
  let existing := sheet.colValues1
  let new_links := links.filter (fun link => decide (link ∉ existing))
  if new_links = [] then
    (new_links, sheet, false)
  else
    (new_links, ⟨sheet.rows ++ new_links.map (fun link => [link])⟩, true)

/-! ## TF-IDF relevance (src/app.py lines 42-50)

`is_relevant(content, keywords)` builds the two documents
`[content, " ".join(keywords)]`, hands them to the external vectorizer /
cosine-similarity pipeline, and returns `(score >= RELEVANCE_THRESHOLD, score)`;
if the external computation raises, it returns `(False, 0)`.  The external
computation is the oracle `score_fn`. -/

def is_relevant (score_fn : String → String → Option ℚ) (threshold : ℚ)
    (content : String) (keywords : List String) : Bool × ℚ :=
  match score_fn content (String.intercalate " " keywords) with
  | none => (false, 0)
  | some score => (decide (score ≥ threshold), score)

/-! ## Link classification (src/app.py lines 53-56)

`classify_link(html)` runs a case-insensitive regex search with the pattern
alternatives `<input`, `<form`, `@`, `\.com` over the markup: it answers
`form` iff one of the four literal alternatives occurs in the markup, matched
case-insensitively, and `open` otherwise.
Case-insensitive literal search is search for the lowercased pattern inside the
lowercased character sequence. -/

/-- The character sequence of `s`, lowercased (the `re.IGNORECASE` fold). -/
def lowerChars (s : String) : List Char :=
  s.toList.map Char.toLower

def classify_link (html : String) : String :=
  if "<input".toList <:+: lowerChars html ∨ "<form".toList <:+: lowerChars html
      ∨ "@".toList <:+: lowerChars html ∨ ".com".toList <:+: lowerChars html
  then "form"
  else "open"

/-! ## Crawl engine (src/app.py lines 85-107)

```
def crawl_site(start_urls, keywords, visited, depth=0):
    results = dict(open=[], form=[])
    if depth > MAX_CRAWL_DEPTH:
        return results
    for url in start_urls:
        if url in visited:
            continue
        visited.add(url)
        html, links = get_links_from_page(url)
        if not html:
            continue                       # (after a log line)
        is_rel, score = is_relevant(html, keywords)
        if is_rel:
            results[classify_link(html)].append(url)
        sub_results = crawl_site(links, keywords, visited, depth + 1)
        results[k].extend(sub_results[k])   # for k in (open, form)
    return results
```

The embedding threads the visited set explicitly and additionally records the
`trace`: the URLs passed to `get_links_from_page`, in call order ("fetched"
URLs).  The module-level constant `MAX_CRAWL_DEPTH` is a parameter so that the
configuration surface of the spec can be quantified over; the source fixes it
to `MAX_CRAWL_DEPTH = 2`.  Recursion terminates because each recursive level
raises `depth` by one and the function returns as soon as
`depth > MAX_CRAWL_DEPTH`; to keep first-class kernel reduction we recurse
structurally on the remaining budget `fuel = MAX_CRAWL_DEPTH + 1 - depth`
(`fuel = 0` is exactly `depth > MAX_CRAWL_DEPTH`). -/

/-- Everything a `crawl_site` call produces: the two result buckets of the
`results` dict, the visited set after the call, and the URLs fetched during
the call, in order. -/
structure CrawlOut where
  opens : List String
  forms : List String
  visited : List String
  trace : List String
deriving Repr, DecidableEq

/-- The body of the `for url in start_urls` loop of `crawl_site`, structurally
recursive over the remaining URLs of the level.  `recur` is the recursive call
`crawl_site(links, keywords, visited, depth + 1)` of the next depth. -/
def crawlLoop (fetch : String → String × List String)
    (score_fn : String → String → Option ℚ) (threshold : ℚ)
    (keywords : List String) (recur : List String → List String → CrawlOut) :
    List String → List String → CrawlOut
  | [], visited => ⟨[], [], visited, []⟩
  | url :: rest, visited =>
    if url ∈ visited then
      crawlLoop fetch score_fn threshold keywords recur rest visited
    else
      let visited' := url :: visited
      let fetched := fetch url
      if fetched.1 = "" then
        let r := crawlLoop fetch score_fn threshold keywords recur rest visited'
        ⟨r.opens, r.forms, r.visited, url :: r.trace⟩
      else
        let is_rel := (is_relevant score_fn threshold fetched.1 keywords).1
        let here_open :=
          if is_rel = true ∧ classify_link fetched.1 = "open" then [url] else []
        let here_form :=
          if is_rel = true ∧ classify_link fetched.1 = "form" then [url] else []
        let sub := recur fetched.2 visited'
        let r := crawlLoop fetch score_fn threshold keywords recur rest sub.visited
        ⟨here_open ++ (sub.opens ++ r.opens), here_form ++ (sub.forms ++ r.forms),
          r.visited, url :: (sub.trace ++ r.trace)⟩

/-- The crawl recursion by remaining depth budget: `fuel = 0` is the
`depth > MAX_CRAWL_DEPTH` early return. -/
def crawlFuel (fetch : String → String × List String)
    (score_fn : String → String → Option ℚ) (threshold : ℚ)
    (keywords : List String) : Nat → List String → List String → CrawlOut
  | 0 => fun _ visited => ⟨[], [], visited, []⟩
  | fuel + 1 =>
    crawlLoop fetch score_fn threshold keywords
      (crawlFuel fetch score_fn threshold keywords fuel)

/-- Embedding of `crawl_site(start_urls, keywords, visited, depth)` for a given
fetch oracle, scoring oracle, `RELEVANCE_THRESHOLD` and `MAX_CRAWL_DEPTH`. -/
def crawl_site (fetch : String → String × List String)
    (score_fn : String → String → Option ℚ) (threshold : ℚ)
    (maxDepth : Nat) (keywords : List String) (start_urls : List String)
    (visited : List String) (depth : Nat := 0) : CrawlOut :=
  crawlFuel fetch score_fn threshold keywords (maxDepth + 1 - depth) start_urls
    visited

/-- The elapsed-time handling around the crawl call (src/app.py lines 183-191):
`start_time` is taken, `crawl_site` runs to completion, and only then is
`time.time() - start_time > CRAWL_TIMEOUT` consulted — solely to decide whether
the "Crawl timed out." warning is shown.  `elapsed` is the wall-clock seconds
the finished crawl took; the crawl output is returned unchanged next to the
warning flag. -/
def timeout_check (elapsed : Nat) (out : CrawlOut) : CrawlOut × Bool :=
  (out, decide (elapsed > CRAWL_TIMEOUT))

/-! ## Concrete oracles for sample runs -/

/-- A fixed fetch oracle: page `"a"` links to page `"c"`; pages `"b"` and
`"c"` have no outbound links; fetching any other URL fails (empty HTML, the
error value of `get_links_from_page`). -/
def fetchAB : String → String × List String := fun url =>
  if url = "a" then ("<p>x</p>", ["c"])
  else if url = "b" then ("<p>y</p>", [])
  else if url = "c" then ("<p>z</p>", [])
  else ("", [])

/-- A scoring oracle whose similarity computation always fails. -/
def scoreNone : String → String → Option ℚ := fun _ _ => none

/-- A scoring oracle whose similarity computation always succeeds with the
given score. -/
def scoreConst (q : ℚ) : String → String → Option ℚ := fun _ _ => some q

/-! ## Unfolding equations for the crawl loop -/

section CrawlLemmas

variable (fetch : String → String × List String)
  (score_fn : String → String → Option ℚ) (threshold : ℚ)
  (keywords : List String)
  (recur : List String → List String → CrawlOut)

theorem crawlLoop_nil (v : List String) :
    crawlLoop fetch score_fn threshold keywords recur [] v = ⟨[], [], v, []⟩ :=
  rfl

theorem crawlLoop_cons_mem {u : String} {v : List String} (h : u ∈ v)
    (rest : List String) :
    crawlLoop fetch score_fn threshold keywords recur (u :: rest) v =
      crawlLoop fetch score_fn threshold keywords recur rest v := by
  simp [crawlLoop, h]

theorem crawlLoop_cons_fail {u : String} {v : List String} (h : u ∉ v)
    (hf : (fetch u).1 = "") (rest : List String) :
    crawlLoop fetch score_fn threshold keywords recur (u :: rest) v =
      ⟨(crawlLoop fetch score_fn threshold keywords recur rest (u :: v)).opens,
        (crawlLoop fetch score_fn threshold keywords recur rest (u :: v)).forms,
        (crawlLoop fetch score_fn threshold keywords recur rest (u :: v)).visited,
        u :: (crawlLoop fetch score_fn threshold keywords recur rest
          (u :: v)).trace⟩ := by
  simp [crawlLoop, h, hf]

theorem crawlLoop_cons_ok {u : String} {v : List String} (h : u ∉ v)
    (hf : ¬ (fetch u).1 = "") (rest : List String) :
    crawlLoop fetch score_fn threshold keywords recur (u :: rest) v =
      ⟨(if (is_relevant score_fn threshold (fetch u).1 keywords).1 = true ∧
            classify_link (fetch u).1 = "open" then [u] else []) ++
          ((recur (fetch u).2 (u :: v)).opens ++
            (crawlLoop fetch score_fn threshold keywords recur rest
              (recur (fetch u).2 (u :: v)).visited).opens),
        (if (is_relevant score_fn threshold (fetch u).1 keywords).1 = true ∧
            classify_link (fetch u).1 = "form" then [u] else []) ++
          ((recur (fetch u).2 (u :: v)).forms ++
            (crawlLoop fetch score_fn threshold keywords recur rest
              (recur (fetch u).2 (u :: v)).visited).forms),
        (crawlLoop fetch score_fn threshold keywords recur rest
          (recur (fetch u).2 (u :: v)).visited).visited,
        u :: ((recur (fetch u).2 (u :: v)).trace ++
          (crawlLoop fetch score_fn threshold keywords recur rest
            (recur (fetch u).2 (u :: v)).visited).trace)⟩ := by
  simp [crawlLoop, h, hf]

theorem crawlLoop_visited_mono
    (hmono : ∀ urls v, v ⊆ (recur urls v).visited) :
    ∀ urls v,
      v ⊆ (crawlLoop fetch score_fn threshold keywords recur urls v).visited := by
  intro urls
  induction urls with
  | nil =>
    intro v
    rw [crawlLoop_nil]
    exact fun _ hx => hx
  | cons u rest ih =>
    intro v
    by_cases hv : u ∈ v
    · rw [crawlLoop_cons_mem fetch score_fn threshold keywords recur hv rest]
      exact ih v
    · by_cases hf : (fetch u).1 = ""
      · rw [crawlLoop_cons_fail fetch score_fn threshold keywords recur hv hf
          rest]
        exact (List.subset_cons_self u v).trans (ih (u :: v))
      · rw [crawlLoop_cons_ok fetch score_fn threshold keywords recur hv hf
          rest]
        exact ((List.subset_cons_self u v).trans
          (hmono (fetch u).2 (u :: v))).trans (ih _)

theorem crawlLoop_trace_inv
    (hmono : ∀ urls v, v ⊆ (recur urls v).visited)
    (htv : ∀ urls v x, x ∈ (recur urls v).trace →
      x ∉ v ∧ x ∈ (recur urls v).visited) :
    ∀ urls v x,
      x ∈ (crawlLoop fetch score_fn threshold keywords recur urls v).trace →
        x ∉ v ∧
        x ∈ (crawlLoop fetch score_fn threshold keywords recur urls
          v).visited := by
  intro urls
  induction urls with
  | nil =>
    intro v x hx
    rw [crawlLoop_nil] at hx
    exact absurd hx (List.not_mem_nil x)
  | cons u rest ih =>
    intro v x hx
    by_cases hv : u ∈ v
    · rw [crawlLoop_cons_mem fetch score_fn threshold keywords recur hv rest]
        at hx ⊢
      exact ih v x hx
    · by_cases hf : (fetch u).1 = ""
      · rw [crawlLoop_cons_fail fetch score_fn threshold keywords recur hv hf
          rest] at hx ⊢
        have hx' : x = u ∨ x ∈ (crawlLoop fetch score_fn threshold keywords
            recur rest (u :: v)).trace := List.mem_cons.mp hx
        rcases hx' with rfl | hx'
        · exact ⟨hv, crawlLoop_visited_mono fetch score_fn threshold keywords
            recur hmono rest (x :: v) (List.mem_cons_self x v)⟩
        · have h2 := ih (u :: v) x hx'
          exact ⟨fun hxv => h2.1 (List.mem_cons_of_mem u hxv), h2.2⟩
      · rw [crawlLoop_cons_ok fetch score_fn threshold keywords recur hv hf
          rest] at hx ⊢
        have hx' : x = u ∨ x ∈ (recur (fetch u).2 (u :: v)).trace ++
            (crawlLoop fetch score_fn threshold keywords recur rest
              (recur (fetch u).2 (u :: v)).visited).trace :=
          List.mem_cons.mp hx
        rcases hx' with rfl | hx'
        · refine ⟨hv, ?_⟩
          exact crawlLoop_visited_mono fetch score_fn threshold keywords recur
            hmono rest ((recur (fetch x).2 (x :: v)).visited)
            (hmono (fetch x).2 (x :: v) (List.mem_cons_self x v))
        · rcases List.mem_append.mp hx' with hsub | hrest
          · have h3 := htv (fetch u).2 (u :: v) x hsub
            refine ⟨fun hxv => h3.1 (List.mem_cons_of_mem u hxv), ?_⟩
            exact crawlLoop_visited_mono fetch score_fn threshold keywords
              recur hmono rest ((recur (fetch u).2 (u :: v)).visited) h3.2
          · have h4 := ih ((recur (fetch u).2 (u :: v)).visited) x hrest
            refine ⟨fun hxv => ?_, h4.2⟩
            exact h4.1 (hmono (fetch u).2 (u :: v) (List.mem_cons_of_mem u hxv))

theorem crawlLoop_trace_nodup
    (hmono : ∀ urls v, v ⊆ (recur urls v).visited)
    (htv : ∀ urls v x, x ∈ (recur urls v).trace →
      x ∉ v ∧ x ∈ (recur urls v).visited)
    (hnd : ∀ urls v, (recur urls v).trace.Nodup) :
    ∀ urls v,
      (crawlLoop fetch score_fn threshold keywords recur urls
        v).trace.Nodup := by
  intro urls
  induction urls with
  | nil =>
    intro v
    rw [crawlLoop_nil]
    exact List.nodup_nil
  | cons u rest ih =>
    intro v
    by_cases hv : u ∈ v
    · rw [crawlLoop_cons_mem fetch score_fn threshold keywords recur hv rest]
      exact ih v
    · by_cases hf : (fetch u).1 = ""
      · rw [crawlLoop_cons_fail fetch score_fn threshold keywords recur hv hf
          rest]
        refine List.nodup_cons.mpr ⟨?_, ih (u :: v)⟩
        intro hu
        exact (crawlLoop_trace_inv fetch score_fn threshold keywords recur
          hmono htv rest (u :: v) u hu).1 (List.mem_cons_self u v)
      · rw [crawlLoop_cons_ok fetch score_fn threshold keywords recur hv hf
          rest]
        refine List.nodup_cons.mpr ⟨?_, ?_⟩
        · intro hu
          rcases List.mem_append.mp hu with hsub | hrest
          · exact (htv (fetch u).2 (u :: v) u hsub).1 (List.mem_cons_self u v)
          · exact (crawlLoop_trace_inv fetch score_fn threshold keywords recur
              hmono htv rest ((recur (fetch u).2 (u :: v)).visited) u hrest).1
              (hmono (fetch u).2 (u :: v) (List.mem_cons_self u v))
        · refine List.nodup_append.mpr ⟨hnd (fetch u).2 (u :: v), ih _, ?_⟩
          intro x hxsub hxrest
          exact (crawlLoop_trace_inv fetch score_fn threshold keywords recur
            hmono htv rest ((recur (fetch u).2 (u :: v)).visited) x hxrest).1
            ((htv (fetch u).2 (u :: v) x hxsub).2)

theorem crawlFuel_visited_mono :
    ∀ fuel urls v,
      v ⊆ (crawlFuel fetch score_fn threshold keywords fuel urls v).visited := by
  intro fuel
  induction fuel with
  | zero => exact fun urls v _ hx => hx
  | succ f ih =>
    exact crawlLoop_visited_mono fetch score_fn threshold keywords
      (crawlFuel fetch score_fn threshold keywords f) ih

theorem crawlFuel_trace_inv :
    ∀ fuel urls v x,
      x ∈ (crawlFuel fetch score_fn threshold keywords fuel urls v).trace →
        x ∉ v ∧
        x ∈ (crawlFuel fetch score_fn threshold keywords fuel urls
          v).visited := by
  intro fuel
  induction fuel with
  | zero => exact fun urls v x hx => absurd hx (List.not_mem_nil x)
  | succ f ih =>
    exact crawlLoop_trace_inv fetch score_fn threshold keywords
      (crawlFuel fetch score_fn threshold keywords f)
      (crawlFuel_visited_mono fetch score_fn threshold keywords f) ih

theorem crawlFuel_trace_nodup :
    ∀ fuel urls v,
      (crawlFuel fetch score_fn threshold keywords fuel urls
        v).trace.Nodup := by
  intro fuel
  induction fuel with
  | zero => exact fun urls v => List.nodup_nil
  | succ f ih =>
    exact crawlLoop_trace_nodup fetch score_fn threshold keywords
      (crawlFuel fetch score_fn threshold keywords f)
      (crawlFuel_visited_mono fetch score_fn threshold keywords f)
      (crawlFuel_trace_inv fetch score_fn threshold keywords f) ih

theorem mem_ite_singleton {c : Prop} [Decidable c] {x u : String}
    (h : x ∈ if c then [u] else ([] : List String)) : x = u := by
  by_cases hc : c
  · rw [if_pos hc] at h
    exact List.mem_singleton.mp h
  · rw [if_neg hc] at h
    exact absurd h (List.not_mem_nil x)

theorem crawlLoop_records_in_trace
    (hrt : ∀ urls v x, x ∈ (recur urls v).opens ∨ x ∈ (recur urls v).forms →
      x ∈ (recur urls v).trace) :
    ∀ urls v x,
      x ∈ (crawlLoop fetch score_fn threshold keywords recur urls v).opens ∨
        x ∈ (crawlLoop fetch score_fn threshold keywords recur urls v).forms →
      x ∈ (crawlLoop fetch score_fn threshold keywords recur urls
        v).trace := by
  intro urls
  induction urls with
  | nil =>
    intro v x hx
    rw [crawlLoop_nil] at hx
    rcases hx with h | h <;> exact absurd h (List.not_mem_nil x)
  | cons u rest ih =>
    intro v x hx
    by_cases hv : u ∈ v
    · rw [crawlLoop_cons_mem fetch score_fn threshold keywords recur hv rest]
        at hx ⊢
      exact ih v x hx
    · by_cases hf : (fetch u).1 = ""
      · rw [crawlLoop_cons_fail fetch score_fn threshold keywords recur hv hf
          rest] at hx ⊢
        exact List.mem_cons_of_mem u (ih (u :: v) x hx)
      · rw [crawlLoop_cons_ok fetch score_fn threshold keywords recur hv hf
          rest] at hx ⊢
        rcases hx with h | h
        · rcases List.mem_append.mp h with h1 | h2
          · rw [mem_ite_singleton h1]
            exact List.mem_cons_self u _
          · rcases List.mem_append.mp h2 with hsub | hrest
            · exact List.mem_cons_of_mem u (List.mem_append_left _
                (hrt (fetch u).2 (u :: v) x (Or.inl hsub)))
            · exact List.mem_cons_of_mem u (List.mem_append_right _
                (ih ((recur (fetch u).2 (u :: v)).visited) x (Or.inl hrest)))
        · rcases List.mem_append.mp h with h1 | h2
          · rw [mem_ite_singleton h1]
            exact List.mem_cons_self u _
          · rcases List.mem_append.mp h2 with hsub | hrest
            · exact List.mem_cons_of_mem u (List.mem_append_left _
                (hrt (fetch u).2 (u :: v) x (Or.inr hsub)))
            · exact List.mem_cons_of_mem u (List.mem_append_right _
                (ih ((recur (fetch u).2 (u :: v)).visited) x (Or.inr hrest)))

theorem crawlLoop_trace_subset
    (hrt : ∀ urls v, (recur urls v).trace = []) :
    ∀ urls v x,
      x ∈ (crawlLoop fetch score_fn threshold keywords recur urls v).trace →
        x ∈ urls := by
  intro urls
  induction urls with
  | nil =>
    intro v x hx
    rw [crawlLoop_nil] at hx
    exact absurd hx (List.not_mem_nil x)
  | cons u rest ih =>
    intro v x hx
    by_cases hv : u ∈ v
    · rw [crawlLoop_cons_mem fetch score_fn threshold keywords recur hv rest]
        at hx
      exact List.mem_cons_of_mem u (ih v x hx)
    · by_cases hf : (fetch u).1 = ""
      · rw [crawlLoop_cons_fail fetch score_fn threshold keywords recur hv hf
          rest] at hx
        have hx' : x = u ∨ x ∈ (crawlLoop fetch score_fn threshold keywords
            recur rest (u :: v)).trace := List.mem_cons.mp hx
        rcases hx' with rfl | hx'
        · exact List.mem_cons_self x rest
        · exact List.mem_cons_of_mem u (ih (u :: v) x hx')
      · rw [crawlLoop_cons_ok fetch score_fn threshold keywords recur hv hf
          rest] at hx
        have hx' : x = u ∨ x ∈ (recur (fetch u).2 (u :: v)).trace ++
            (crawlLoop fetch score_fn threshold keywords recur rest
              (recur (fetch u).2 (u :: v)).visited).trace :=
          List.mem_cons.mp hx
        rcases hx' with rfl | hx'
        · exact List.mem_cons_self x rest
        · rcases List.mem_append.mp hx' with hsub | hrest
          · rw [hrt (fetch u).2 (u :: v)] at hsub
            exact absurd hsub (List.not_mem_nil x)
          · exact List.mem_cons_of_mem u
              (ih ((recur (fetch u).2 (u :: v)).visited) x hrest)

theorem crawlLoop_head_fetched {u : String} {v : List String} (h : u ∉ v)
    (rest : List String) :
    u ∈ (crawlLoop fetch score_fn threshold keywords recur (u :: rest)
      v).trace := by
  by_cases hf : (fetch u).1 = ""
  · rw [crawlLoop_cons_fail fetch score_fn threshold keywords recur h hf rest]
    exact List.mem_cons_self u _
  · rw [crawlLoop_cons_ok fetch score_fn threshold keywords recur h hf rest]
    exact List.mem_cons_self u _

theorem crawlFuel_records_in_trace :
    ∀ fuel urls v x,
      x ∈ (crawlFuel fetch score_fn threshold keywords fuel urls v).opens ∨
        x ∈ (crawlFuel fetch score_fn threshold keywords fuel urls v).forms →
      x ∈ (crawlFuel fetch score_fn threshold keywords fuel urls v).trace := by
  intro fuel
  induction fuel with
  | zero =>
    intro urls v x hx
    rcases hx with h | h <;> exact absurd h (List.not_mem_nil x)
  | succ f ih =>
    exact crawlLoop_records_in_trace fetch score_fn threshold keywords
      (crawlFuel fetch score_fn threshold keywords f) ih

theorem crawlLoop_append :
    ∀ xs ys v,
      crawlLoop fetch score_fn threshold keywords recur (xs ++ ys) v =
        ⟨(crawlLoop fetch score_fn threshold keywords recur xs v).opens ++
            (crawlLoop fetch score_fn threshold keywords recur ys
              (crawlLoop fetch score_fn threshold keywords recur xs
                v).visited).opens,
          (crawlLoop fetch score_fn threshold keywords recur xs v).forms ++
            (crawlLoop fetch score_fn threshold keywords recur ys
              (crawlLoop fetch score_fn threshold keywords recur xs
                v).visited).forms,
          (crawlLoop fetch score_fn threshold keywords recur ys
            (crawlLoop fetch score_fn threshold keywords recur xs
              v).visited).visited,
          (crawlLoop fetch score_fn threshold keywords recur xs v).trace ++
            (crawlLoop fetch score_fn threshold keywords recur ys
              (crawlLoop fetch score_fn threshold keywords recur xs
                v).visited).trace⟩ := by
  intro xs
  induction xs with
  | nil =>
    intro ys v
    simp [crawlLoop_nil]
  | cons u xs ih =>
    intro ys v
    by_cases hv : u ∈ v
    · rw [List.cons_append,
        crawlLoop_cons_mem fetch score_fn threshold keywords recur hv
          (xs ++ ys),
        crawlLoop_cons_mem fetch score_fn threshold keywords recur hv xs,
        ih ys v]
    · by_cases hf : (fetch u).1 = ""
      · rw [List.cons_append,
          crawlLoop_cons_fail fetch score_fn threshold keywords recur hv hf
            (xs ++ ys),
          crawlLoop_cons_fail fetch score_fn threshold keywords recur hv hf xs,
          ih ys (u :: v)]
        simp [List.append_assoc]
      · rw [List.cons_append,
          crawlLoop_cons_ok fetch score_fn threshold keywords recur hv hf
            (xs ++ ys),
          crawlLoop_cons_ok fetch score_fn threshold keywords recur hv hf xs,
          ih ys ((recur (fetch u).2 (u :: v)).visited)]
        simp [List.append_assoc]

theorem crawlFuel_append :
    ∀ fuel xs ys v,
      crawlFuel fetch score_fn threshold keywords fuel (xs ++ ys) v =
        ⟨(crawlFuel fetch score_fn threshold keywords fuel xs v).opens ++
            (crawlFuel fetch score_fn threshold keywords fuel ys
              (crawlFuel fetch score_fn threshold keywords fuel xs
                v).visited).opens,
          (crawlFuel fetch score_fn threshold keywords fuel xs v).forms ++
            (crawlFuel fetch score_fn threshold keywords fuel ys
              (crawlFuel fetch score_fn threshold keywords fuel xs
                v).visited).forms,
          (crawlFuel fetch score_fn threshold keywords fuel ys
            (crawlFuel fetch score_fn threshold keywords fuel xs
              v).visited).visited,
          (crawlFuel fetch score_fn threshold keywords fuel xs v).trace ++
            (crawlFuel fetch score_fn threshold keywords fuel ys
              (crawlFuel fetch score_fn threshold keywords fuel xs
                v).visited).trace⟩ := by
  intro fuel
  cases fuel with
  | zero => intro xs ys v; simp [crawlFuel]
  | succ f =>
    exact crawlLoop_append fetch score_fn threshold keywords
      (crawlFuel fetch score_fn threshold keywords f)

end CrawlLemmas

theorem update_sheet_fst (sheet : Sheet) (links : List String) :
    (update_sheet sheet links).1 =
      links.filter (fun link => decide (link ∉ sheet.colValues1)) := by
  unfold update_sheet
  dsimp only
  split <;> rfl

/-! ## Claim theorems -/

/-- C6: `classify_link` answers `form` exactly when the markup contains one of
the four pattern alternatives (an input tag, a form tag, an `@` token, or a
literal `.com`), matched case-insensitively; it is total (every input is
classified `form` or `open`), and on the three sample inputs it answers
`form`, `open`, `form` respectively.  Purity holds by construction: the
embedding is a function of the markup alone. -/
theorem classify_link_spec :
    (∀ html : String,
      (classify_link html = "form" ↔
        ∃ pre pat post : List Char,
          (pat = "<input".toList ∨ pat = "<form".toList ∨
            pat = "@".toList ∨ pat = ".com".toList) ∧
          pre ++ pat ++ post = lowerChars html)) ∧
    (∀ html : String,
      classify_link html = "form" ∨ classify_link html = "open") ∧
    classify_link "<form></form>" = "form" ∧
    classify_link "<p>hello</p>" = "open" ∧
    classify_link "contact me at a@b.com" = "form" := by
  refine ⟨fun html => ⟨?_, ?_⟩, fun html => ?_, by decide, by decide, by decide⟩
  · intro hform
    unfold classify_link at hform
    by_cases hc : "<input".toList <:+: lowerChars html ∨
        "<form".toList <:+: lowerChars html ∨
        "@".toList <:+: lowerChars html ∨ ".com".toList <:+: lowerChars html
    · rcases hc with h | h | h | h
      · obtain ⟨s, t, hst⟩ := h
        exact ⟨s, "<input".toList, t, Or.inl rfl, hst⟩
      · obtain ⟨s, t, hst⟩ := h
        exact ⟨s, "<form".toList, t, Or.inr (Or.inl rfl), hst⟩
      · obtain ⟨s, t, hst⟩ := h
        exact ⟨s, "@".toList, t, Or.inr (Or.inr (Or.inl rfl)), hst⟩
      · obtain ⟨s, t, hst⟩ := h
        exact ⟨s, ".com".toList, t, Or.inr (Or.inr (Or.inr rfl)), hst⟩
    · rw [if_neg hc] at hform
      exact absurd hform (by decide)
  · rintro ⟨pre, pat, post, hpat, heq⟩
    unfold classify_link
    rcases hpat with rfl | rfl | rfl | rfl
    · rw [if_pos (Or.inl ⟨pre, post, heq⟩)]
    · rw [if_pos (Or.inr (Or.inl ⟨pre, post, heq⟩))]
    · rw [if_pos (Or.inr (Or.inr (Or.inl ⟨pre, post, heq⟩)))]
    · rw [if_pos (Or.inr (Or.inr (Or.inr ⟨pre, post, heq⟩)))]
  · unfold classify_link
    by_cases hc : "<input".toList <:+: lowerChars html ∨
        "<form".toList <:+: lowerChars html ∨
        "@".toList <:+: lowerChars html ∨ ".com".toList <:+: lowerChars html
    · rw [if_pos hc]
      exact Or.inl rfl
    · rw [if_neg hc]
      exact Or.inr rfl

/-- C7: when the external similarity computation fails, `is_relevant` returns
`(false, 0)` to its caller; the failure is recovered locally (the embedding is
a total function, so no exception escapes). -/
theorem is_relevant_failure_recovered
    (score_fn : String → String → Option ℚ) (threshold : ℚ)
    (content : String) (keywords : List String)
    (hfail : score_fn content (String.intercalate " " keywords) = none) :
    is_relevant score_fn threshold content keywords = (false, 0) := by
  unfold is_relevant
  rw [hfail]

/-- Witness for C7 at a concrete always-failing oracle. -/
theorem is_relevant_failure_recovered_witness :
    is_relevant scoreNone RELEVANCE_THRESHOLD "degenerate" ["kw"] =
      (false, 0) :=
  is_relevant_failure_recovered scoreNone RELEVANCE_THRESHOLD "degenerate"
    ["kw"] rfl

/-- C8: when the external similarity computation succeeds with score `s`, the
relevance decision is `s >= threshold`, the score is passed through, a score
exactly equal to the threshold is relevant (inclusive bound), and a score
below the threshold is not. -/
theorem is_relevant_threshold_inclusive
    (score_fn : String → String → Option ℚ) (threshold : ℚ)
    (content : String) (keywords : List String) (s : ℚ)
    (hs : score_fn content (String.intercalate " " keywords) = some s) :
    ((is_relevant score_fn threshold content keywords).1 = true ↔
      threshold ≤ s) ∧
    (is_relevant score_fn threshold content keywords).2 = s ∧
    (s = threshold →
      (is_relevant score_fn threshold content keywords).1 = true) ∧
    (s < threshold →
      (is_relevant score_fn threshold content keywords).1 = false) := by
  unfold is_relevant
  rw [hs]
  refine ⟨by simp [ge_iff_le], rfl, fun h => ?_, fun h => ?_⟩
  · subst h
    simp
  · simp only [ge_iff_le, decide_eq_false_iff_not, not_le]
    exact h

/-- Witness for C8 at a concrete oracle returning exactly the threshold. -/
theorem is_relevant_threshold_inclusive_witness :
    (is_relevant (scoreConst RELEVANCE_THRESHOLD) RELEVANCE_THRESHOLD "page"
      ["kw"]).1 = true :=
  (is_relevant_threshold_inclusive (scoreConst RELEVANCE_THRESHOLD)
    RELEVANCE_THRESHOLD "page" ["kw"] RELEVANCE_THRESHOLD rfl).2.2.1 rfl

/-- C3 counterexample: with existing keys `A`, `B` and candidate batch
`[A, C, C, D]`, `update_sheet` returns `[C, C, D]`, not the `[C, D]` the claim
demands — it does not dedupe within the batch. -/
theorem update_sheet_batch_dupes_cex :
    (update_sheet ⟨[["A"], ["B"]]⟩ ["A", "C", "C", "D"]).1 = ["C", "C", "D"] ∧
    (update_sheet ⟨[["A"], ["B"]]⟩ ["A", "C", "C", "D"]).1 ≠ ["C", "D"] := by
  decide

/-- C3 (amended): the write step filters the batch to records whose URL is not
already among the existing first-column keys, keeps every occurrence within
the batch (no within-batch dedupe), appends exactly that filtered list, and
returns exactly what was appended. -/
theorem update_sheet_no_batch_dedupe (sheet : Sheet) (links : List String) :
    ((update_sheet sheet links).2.1).rows =
      sheet.rows ++ ((update_sheet sheet links).1).map (fun link => [link]) ∧
    (∀ l, l ∈ (update_sheet sheet links).1 → l ∉ sheet.colValues1) ∧
    (∀ l, ((update_sheet sheet links).1).count l =
      if l ∈ sheet.colValues1 then 0 else links.count l) := by
  refine ⟨?_, ?_, ?_⟩
  · rw [update_sheet_fst]
    unfold update_sheet
    dsimp only
    split
    · rename_i h
      rw [h]
      simp
    · rfl
  · intro l hl
    rw [update_sheet_fst] at hl
    have h2 := (List.mem_filter.mp hl).2
    simpa using h2
  · intro l
    rw [update_sheet_fst]
    by_cases hl : l ∈ sheet.colValues1
    · rw [if_pos hl]
      refine List.count_eq_zero.mpr ?_
      intro hmem
      have h2 := (List.mem_filter.mp hmem).2
      simp only [decide_eq_true_eq] at h2
      exact h2 hl
    · rw [if_neg hl]
      exact List.count_filter (by simp only [decide_eq_true_eq]; exact hl)

/-- Witness for C3 (amended) discharging the membership hypothesis at a
concrete sheet and batch. -/
theorem update_sheet_no_batch_dedupe_witness :
    "C" ∉ (Sheet.mk [["A"], ["B"]]).colValues1 :=
  (update_sheet_no_batch_dedupe ⟨[["A"], ["B"]]⟩ ["C"]).2.1 "C" (by decide)

/-- C10: `update_sheet` returns exactly the elements of the input list whose
URL does not occur in the first column of the sheet, as an order-preserving
subsequence of the input with duplicate occurrences retained, and it calls
`append_rows` exactly when that list is non-empty. -/
theorem update_sheet_append_behavior (sheet : Sheet) (links : List String) :
    List.Sublist ((update_sheet sheet links).1) links ∧
    (∀ l, l ∈ (update_sheet sheet links).1 ↔
      l ∈ links ∧ l ∉ sheet.colValues1) ∧
    (∀ l, l ∉ sheet.colValues1 →
      ((update_sheet sheet links).1).count l = links.count l) ∧
    ((update_sheet sheet links).2.2 = true ↔
      (update_sheet sheet links).1 ≠ []) := by
  refine ⟨?_, ?_, ?_, ?_⟩
  · rw [update_sheet_fst]
    exact List.filter_sublist links
  · intro l
    rw [update_sheet_fst, List.mem_filter]
    simp
  · intro l hl
    rw [update_sheet_fst]
    exact List.count_filter (by simp only [decide_eq_true_eq]; exact hl)
  · rw [update_sheet_fst]
    unfold update_sheet
    dsimp only
    split
    · rename_i h
      rw [h]
      simp
    · rename_i h
      simpa using h

/-- Witness for C10 discharging the not-already-present hypothesis at a
concrete sheet and a batch with an internal duplicate. -/
theorem update_sheet_append_behavior_witness :
    ((update_sheet ⟨[["A"]]⟩ ["B", "B"]).1).count "B" =
      (["B", "B"] : List String).count "B" :=
  (update_sheet_append_behavior ⟨[["A"]]⟩ ["B", "B"]).2.2.1 "B" (by decide)

/-- C1 (code evidence): `crawl_site` contains no deadline parameter or check
at all — its embedding is a function of the fetcher, scorer, configuration and
seeds only.  The source consults `CRAWL_TIMEOUT` once, after the crawl has
already completed, and only to pick a warning flag: `timeout_check` returns
the crawl output unchanged for every elapsed time, and a concrete crawl whose
elapsed time exceeds the budget still fetched its seed and the seed link
rather than returning immediately with zero fetches. -/
theorem crawl_no_deadline_enforcement :
    (∀ elapsed out, (timeout_check elapsed out).1 = out) ∧
    (timeout_check (CRAWL_TIMEOUT + 1)
        (crawl_site fetchAB scoreNone RELEVANCE_THRESHOLD MAX_CRAWL_DEPTH []
          ["a"] [])).2 = true ∧
    (crawl_site fetchAB scoreNone RELEVANCE_THRESHOLD MAX_CRAWL_DEPTH []
      ["a"] []).trace = ["a", "c"] :=
  ⟨fun _ _ => rfl, by decide, by decide⟩

/-- C2 counterexample: with seeds `a`, `b` where page `a` links to page `c`,
the crawl fetches `c` (discovered at depth 0, expanded at depth 1) before the
depth-0 seed `b`: the trace is `[a, c, b]`, so the frontier at depth 0 is not
exhausted before depth-1 expansion begins. -/
theorem crawl_not_level_order_cex :
    (crawl_site fetchAB scoreNone 1 1 [] ["a", "b"] []).trace =
      ["a", "c", "b"] ∧
    (crawl_site fetchAB scoreNone 1 1 [] ["a", "b"] []).trace.indexOf "c" <
      (crawl_site fetchAB scoreNone 1 1 [] ["a", "b"] []).trace.indexOf
        "b" := by
  decide

/-- C2 (amended): the traversal is depth-first, not level-order: all the work
generated by an earlier segment of the frontier — including its entire
recursive expansion at greater depths — precedes, in the fetch trace and in
both result buckets, every URL of a later segment of the same frontier, which
is processed in the visited-set state the earlier segment left behind. -/
theorem crawl_depth_first_order (fetch : String → String × List String)
    (score_fn : String → String → Option ℚ) (threshold : ℚ) (maxDepth : Nat)
    (keywords : List String) (xs ys visited : List String) (depth : Nat) :
    crawl_site fetch score_fn threshold maxDepth keywords (xs ++ ys) visited
      depth =
      ⟨(crawl_site fetch score_fn threshold maxDepth keywords xs visited
          depth).opens ++
          (crawl_site fetch score_fn threshold maxDepth keywords ys
            (crawl_site fetch score_fn threshold maxDepth keywords xs visited
              depth).visited depth).opens,
        (crawl_site fetch score_fn threshold maxDepth keywords xs visited
          depth).forms ++
          (crawl_site fetch score_fn threshold maxDepth keywords ys
            (crawl_site fetch score_fn threshold maxDepth keywords xs visited
              depth).visited depth).forms,
        (crawl_site fetch score_fn threshold maxDepth keywords ys
          (crawl_site fetch score_fn threshold maxDepth keywords xs visited
            depth).visited depth).visited,
        (crawl_site fetch score_fn threshold maxDepth keywords xs visited
          depth).trace ++
          (crawl_site fetch score_fn threshold maxDepth keywords ys
            (crawl_site fetch score_fn threshold maxDepth keywords xs visited
              depth).visited depth).trace⟩ :=
  crawlFuel_append fetch score_fn threshold keywords (maxDepth + 1 - depth)
    xs ys visited

/-- C4: the recursion returns empty results and performs no fetch once
`depth > MAX_CRAWL_DEPTH`; the bound is inclusive — at any `depth ≤
MAX_CRAWL_DEPTH` an unvisited head URL is fetched; LinkRecords arise only at
fetched nodes; and with `MAX_CRAWL_DEPTH = 0` only the seed URLs themselves
are fetched, none of their links. -/
theorem crawl_depth_bound (fetch : String → String × List String)
    (score_fn : String → String → Option ℚ) (threshold : ℚ) (maxDepth : Nat)
    (keywords : List String) (start_urls visited : List String)
    (depth : Nat) :
    (depth > maxDepth →
      crawl_site fetch score_fn threshold maxDepth keywords start_urls
        visited depth = ⟨[], [], visited, []⟩) ∧
    (∀ u rest, depth ≤ maxDepth → u ∉ visited →
      u ∈ (crawl_site fetch score_fn threshold maxDepth keywords (u :: rest)
        visited depth).trace) ∧
    (∀ x, x ∈ (crawl_site fetch score_fn threshold maxDepth keywords
          start_urls visited depth).opens ∨
        x ∈ (crawl_site fetch score_fn threshold maxDepth keywords start_urls
          visited depth).forms →
      x ∈ (crawl_site fetch score_fn threshold maxDepth keywords start_urls
        visited depth).trace) ∧
    (∀ x, x ∈ (crawl_site fetch score_fn threshold 0 keywords start_urls
        visited 0).trace → x ∈ start_urls) := by
  refine ⟨?_, ?_, ?_, ?_⟩
  · intro h
    unfold crawl_site
    rw [Nat.sub_eq_zero_of_le (by omega : maxDepth + 1 ≤ depth)]
    rfl
  · intro u rest hle hu
    unfold crawl_site
    have hfuel : maxDepth + 1 - depth = (maxDepth - depth) + 1 := by omega
    rw [hfuel]
    exact crawlLoop_head_fetched fetch score_fn threshold keywords
      (crawlFuel fetch score_fn threshold keywords (maxDepth - depth)) hu rest
  · exact crawlFuel_records_in_trace fetch score_fn threshold keywords
      (maxDepth + 1 - depth) start_urls visited
  · exact crawlLoop_trace_subset fetch score_fn threshold keywords
      (crawlFuel fetch score_fn threshold keywords 0) (fun _ _ => rfl)
      start_urls visited

/-- Witness for C4 discharging each hypothesis at concrete crawls: a call at
depth 3 with bound 2 is empty, an unvisited seed is fetched at the bound, a
recorded relevant URL is in the trace, and with bound 0 the fetched URL is a
seed. -/
theorem crawl_depth_bound_witness :
    crawl_site fetchAB scoreNone 1 2 [] ["a"] [] 3 = ⟨[], [], [], []⟩ ∧
    "a" ∈ (crawl_site fetchAB scoreNone 1 2 [] ["a"] [] 2).trace ∧
    "a" ∈ (crawl_site fetchAB (scoreConst 1) 1 0 [] ["a"] [] 0).trace ∧
    "a" ∈ (["a"] : List String) :=
  ⟨(crawl_depth_bound fetchAB scoreNone 1 2 [] ["a"] [] 3).1 (by decide),
    (crawl_depth_bound fetchAB scoreNone 1 2 [] ["a"] [] 2).2.1 "a" []
      (by decide) (by decide),
    (crawl_depth_bound fetchAB (scoreConst 1) 1 0 [] ["a"] [] 0).2.2.1 "a"
      (Or.inl (by decide)),
    (crawl_depth_bound fetchAB scoreNone 1 0 [] ["a"] [] 0).2.2.2 "a"
      (by decide)⟩

/-- C5: within one crawl run every URL is fetched at most once — the fetch
trace has no duplicates — and a fetched URL was not in the visited set handed
in and is in the visited set handed back (inserted upon dequeue, before the
fetch, so a URL reachable by several paths is fetched at most once). -/
theorem crawl_fetches_at_most_once (fetch : String → String × List String)
    (score_fn : String → String → Option ℚ) (threshold : ℚ) (maxDepth : Nat)
    (keywords : List String) (start_urls visited : List String)
    (depth : Nat) :
    (crawl_site fetch score_fn threshold maxDepth keywords start_urls visited
      depth).trace.Nodup ∧
    ∀ x, x ∈ (crawl_site fetch score_fn threshold maxDepth keywords
        start_urls visited depth).trace →
      x ∉ visited ∧
      x ∈ (crawl_site fetch score_fn threshold maxDepth keywords start_urls
        visited depth).visited :=
  ⟨crawlFuel_trace_nodup fetch score_fn threshold keywords
      (maxDepth + 1 - depth) start_urls visited,
    fun x => crawlFuel_trace_inv fetch score_fn threshold keywords
      (maxDepth + 1 - depth) start_urls visited x⟩

/-- Witness for C5 discharging the trace-membership hypothesis at a concrete
crawl with a pre-visited URL. -/
theorem crawl_fetches_at_most_once_witness :
    "a" ∉ (["z"] : List String) ∧
    "a" ∈ (crawl_site fetchAB scoreNone 1 2 [] ["a"] ["z"] 0).visited :=
  (crawl_fetches_at_most_once fetchAB scoreNone 1 2 [] ["a"] ["z"] 0).2 "a"
    (by decide)

/-- C9: a fetch failure (empty HTML) for the head URL of a frontier does not
abort the traversal: the URL is marked visited and appears in the trace as
attempted, contributes no record to either bucket, its links are not
expanded, and the crawl of the remaining URLs proceeds exactly as if called
directly. -/
theorem crawl_fetch_failure_dead_end (fetch : String → String × List String)
    (score_fn : String → String → Option ℚ) (threshold : ℚ) (maxDepth : Nat)
    (keywords : List String) (u : String) (rest visited : List String)
    (depth : Nat) (hdepth : depth ≤ maxDepth) (hu : u ∉ visited)
    (hfail : (fetch u).1 = "") :
    crawl_site fetch score_fn threshold maxDepth keywords (u :: rest) visited
      depth =
      ⟨(crawl_site fetch score_fn threshold maxDepth keywords rest
          (u :: visited) depth).opens,
        (crawl_site fetch score_fn threshold maxDepth keywords rest
          (u :: visited) depth).forms,
        (crawl_site fetch score_fn threshold maxDepth keywords rest
          (u :: visited) depth).visited,
        u :: (crawl_site fetch score_fn threshold maxDepth keywords rest
          (u :: visited) depth).trace⟩ := by
  unfold crawl_site
  have hfuel : maxDepth + 1 - depth = (maxDepth - depth) + 1 := by omega
  rw [hfuel]
  exact crawlLoop_cons_fail fetch score_fn threshold keywords
    (crawlFuel fetch score_fn threshold keywords (maxDepth - depth)) hu hfail
    rest

/-- Witness for C9 at a concrete frontier whose head URL fails to fetch. -/
theorem crawl_fetch_failure_dead_end_witness :
    crawl_site fetchAB scoreNone 1 2 [] ["z", "a"] [] 0 =
      ⟨(crawl_site fetchAB scoreNone 1 2 [] ["a"] ["z"] 0).opens,
        (crawl_site fetchAB scoreNone 1 2 [] ["a"] ["z"] 0).forms,
        (crawl_site fetchAB scoreNone 1 2 [] ["a"] ["z"] 0).visited,
        "z" :: (crawl_site fetchAB scoreNone 1 2 [] ["a"] ["z"] 0).trace⟩ :=
  crawl_fetch_failure_dead_end fetchAB scoreNone 1 2 [] "z" ["a"] [] 0
    (by decide) (by decide) (by decide)

end WebCrawler
